import Mathlib

/-!
Shallow embedding of the mount-lifecycle core of docker-volume-netshare
(src/netshare/drivers/mounts.go and src/netshare/drivers/util.go).

Go `map[string]int` / `map[string]string` values are embedded as association
lists with Go's zero-value read semantics (a missing key reads as 0 / "").
The Consul KV store is embedded as a function from names to optional mount
records; `putConsulMount` writes unconditionally (the Go code fetches the
KVPair but issues a plain Put, not a check-and-set).  The manager's own
hostname is passed explicitly as the `host` argument.
-/

namespace Netshare

/-- The Mount record (struct `mount` in mounts.go). -/
structure mount where
  Name : String
  HostDir : String
  Opts : List (String × String)
  Managed : Bool
  Connections : List (String × Int)
deriving DecidableEq

/-- Go map read with zero default: `m[k]` on a `map[string]int`. -/
def mapGet : List (String × Int) → String → Int
  | [], _ => 0
  | (a, v) :: rest, k => if a = k then v else mapGet rest k

/-- Go map assignment `m[k] = v` on a `map[string]int`: replace the first
binding of `k`, or append a new binding. -/
def mapSet : List (String × Int) → String → Int → List (String × Int)
  | [], k, v => [(k, v)]
  | (a, x) :: rest, k, v => if a = k then (k, v) :: rest else (a, x) :: mapSet rest k v

/-- Go map assignment on a `map[string]string`. -/
def strMapSet : List (String × String) → String → String → List (String × String)
  | [], k, v => [(k, v)]
  | (a, x) :: rest, k, v => if a = k then (k, v) :: rest else (a, x) :: strMapSet rest k v

/-- The Consul KV store, restricted to the mount namespace: a map from
mount names to records (`nil` = absent key). -/
def Store : Type := String → Option mount

/-- `getConsulMount`: read the record for `name` from the store. -/
def getConsulMount (s : Store) (name : String) : Option mount := s name

/-- `putConsulMount`: serialize the record and write it at its name's key.
The Go code first re-reads the KVPair but then issues an unconditional Put,
so the write is modelled as an unconditional store update. -/
def putConsulMount (s : Store) (mnt : mount) : Store :=
  fun n => if n = mnt.Name then some mnt else s n

/-- `deleteConsulMount`: remove the key for `name`. -/
def deleteConsulMount (s : Store) (name : String) : Store :=
  fun n => if n = name then none else s n

/-- `HasMount`: the record exists. -/
def HasMount (s : Store) (name : String) : Bool :=
  (getConsulMount s name).isSome

/-- `IsActiveMount`: record exists and this host's count is positive. -/
def IsActiveMount (s : Store) (host name : String) : Bool :=
  match getConsulMount s name with
  | some mnt => decide (0 < mapGet mnt.Connections host)
  | none => false

/-- `Count`: this host's connection count, 0 when the record is absent. -/
def Count (s : Store) (host name : String) : Int :=
  match getConsulMount s name with
  | some mnt => mapGet mnt.Connections host
  | none => 0

/-- `Increment`: bump this host's count and persist; returns the new count,
or 0 when the record is absent. -/
def Increment (s : Store) (host name : String) : Store × Int :=
  match getConsulMount s name with
  | some mnt =>
    let mnt' := { mnt with
      Connections := mapSet mnt.Connections host (mapGet mnt.Connections host + 1) }
    (putConsulMount s mnt', mapGet mnt'.Connections host)
  | none => (s, 0)

/-- `Decrement`: when the record exists and this host's count is positive,
lower it by one and persist; the Go function always returns literal 0. -/
def Decrement (s : Store) (host name : String) : Store × Int :=
  match getConsulMount s name with
  | some mnt =>
    if 0 < mapGet mnt.Connections host then
      let mnt' := { mnt with
        Connections := mapSet mnt.Connections host (mapGet mnt.Connections host - 1) }
      (putConsulMount s mnt', 0)
    else (s, 0)
  | none => (s, 0)

/-- `Add`: increment when the record exists, otherwise create a fresh
unmanaged record with this host's count 1 (Go leaves `Opts` nil). -/
def Add (s : Store) (host name hostdir : String) : Store :=
  match getConsulMount s name with
  | some _ => (Increment s host name).1
  | none =>
    putConsulMount s
      { Name := name, HostDir := hostdir, Opts := [], Managed := false,
        Connections := [(host, 1)] }

/-- `Create`: when the record exists and this host's count is positive,
overwrite `Opts` and persist; otherwise persist a fresh managed record with
this host's count 0 and the given options.  Returns the persisted record. -/
def Create (s : Store) (host name hostdir : String)
    (opts : List (String × String)) : Store × mount :=
  match getConsulMount s name with
  | some mnt =>
    if 0 < mapGet mnt.Connections host then
      let mnt' := { mnt with Opts := opts }
      (putConsulMount s mnt', mnt')
    else
      let fresh : mount :=
        { Name := name, HostDir := hostdir, Opts := opts, Managed := true,
          Connections := [(host, 0)] }
      (putConsulMount s fresh, fresh)
  | none =>
    let fresh : mount :=
      { Name := name, HostDir := hostdir, Opts := opts, Managed := true,
        Connections := [(host, 0)] }
    (putConsulMount s fresh, fresh)

/-- The error string `Delete` returns while the volume is in use. -/
def InUseError : String := "Volume is currently in use"

/-- `Delete`: error when the record exists with this host's count at least 1;
otherwise delete the key (also when it is already absent) and succeed. -/
def Delete (s : Store) (host name : String) : Store × Option String :=
  if HasMount s name then
    if Count s host name < 1 then (deleteConsulMount s name, none)
    else (s, some InUseError)
  else (deleteConsulMount s name, none)

/-- `DeleteIfNotManaged`: when the record exists, is not active on this host
and is unmanaged, delegate to `Delete`; in every other case succeed without
touching the store. -/
def DeleteIfNotManaged (s : Store) (host name : String) : Store × Option String :=
  if HasMount s name && !(IsActiveMount s host name) then
    match getConsulMount s name with
    | some mnt => if mnt.Managed then (s, none) else Delete s host name
    | none => (s, none)
  else (s, none)

/-- Observer: the connection count of host `h` in the record stored at
`name`, `none` when the record is absent. -/
def connAt (s : Store) (name h : String) : Option Int :=
  (s name).map fun mnt => mapGet mnt.Connections h

/-- Association-list lookup: the binding of `k`, if present (a Go map read
that distinguishes a missing key from a stored zero). -/
def lookupEntry : List (String × Int) → String → Option Int
  | [], _ => none
  | (a, v) :: rest, k => if a = k then some v else lookupEntry rest k

/-- Observer: host `h`'s entry in the Connections map of the record stored
at `name`; `none` when the record or the entry is absent. -/
def connEntry (s : Store) (name h : String) : Option Int :=
  match s name with
  | some mnt => lookupEntry mnt.Connections h
  | none => none

/-- A single manager operation, for reasoning about operation sequences. -/
inductive Op where
  | add (name hostdir : String)
  | create (name hostdir : String) (opts : List (String × String))
  | inc (name : String)
  | dec (name : String)
  | del (name : String)
  | delIfNotManaged (name : String)

/-- Run one manager operation (discarding return values). -/
def execOp (host : String) (s : Store) : Op → Store
  | .add name hostdir => Add s host name hostdir
  | .create name hostdir opts => (Create s host name hostdir opts).1
  | .inc name => (Increment s host name).1
  | .dec name => (Decrement s host name).1
  | .del name => (Delete s host name).1
  | .delIfNotManaged name => (DeleteIfNotManaged s host name).1

/-- Run a sequence of manager operations. -/
def execSeq (host : String) (s : Store) : List Op → Store
  | [] => s
  | op :: ops => execSeq host (execOp host s op) ops

/-- The empty store. -/
def emptyStore : Store := fun _ => none

/-- Every connection count of every stored record is non-negative. -/
def WellFormed (s : Store) : Prop :=
  ∀ name mnt, s name = some mnt → ∀ h, 0 ≤ mapGet mnt.Connections h

/-! ### Read-modify-write decomposition of `Increment`

`Increment` is a get from the store followed by an unconditional put of a
record computed from the snapshot.  For reasoning about two calls whose
gets and puts interleave, the two halves are named separately; `Increment`
is their sequential composition (`Increment_eq_apply_snapshot` below). -/

/-- The read half of `Increment`: the snapshot `getConsulMount` returns. -/
def incSnapshot (s : Store) (name : String) : Option mount :=
  getConsulMount s name

/-- The write half of `Increment`: given a snapshot, bump this host's count
in it and put the result unconditionally (no version check — the Go Put is
not a check-and-set). -/
def incApply (s : Store) (host : String) : Option mount → Store
  | some mnt =>
    putConsulMount s { mnt with
      Connections := mapSet mnt.Connections host (mapGet mnt.Connections host + 1) }
  | none => s

/-! ### Secret provider (`getVaultConfig`, `FillVaultConfigInOpts`)

The vault client is external; its responses are an explicit parameter.  A
secret value read from vault is a string or some other JSON type; the Go
code coerces with the unchecked assertion `val.(string)`.  Go runtime
panics (nil-pointer dereference, failed type assertion) are modelled as the
error side of `Except`. -/

/-- A Go runtime panic the secret-fetch path can raise. -/
inductive GoPanic where
  | nilPointerDereference
  | typeAssertionFailure
deriving DecidableEq

/-- A value in the secret bundle: a string, or some non-string JSON value. -/
inductive VaultValue where
  | str (s : String)
  | nonString
deriving DecidableEq

/-- Responses of the external vault service for one fetch.
`readResult = none` models `Logical().Read` returning a nil secret (its
error, if any, is discarded by the Go code); `readResult = some d` models a
non-nil secret whose `Data` field is `d`. -/
structure VaultEnv where
  clientNil : Bool
  loginErr : Bool
  readResult : Option (List (String × VaultValue))

/-- `getVaultConfig`: nil client or failed login yield nil; then the read's
error is ignored and `secret.Data` is dereferenced, which panics when the
returned secret is nil. -/
def getVaultConfig (env : VaultEnv) :
    Except GoPanic (Option (List (String × VaultValue))) :=
  if env.clientNil then .ok none
  else if env.loginErr then .ok none
  else
    match env.readResult with
    | none => .error .nilPointerDereference
    | some data => .ok (some data)

/-- The loop body of `FillVaultConfigInOpts`: `opts[key] = val.(string)`
for each pair; a non-string value fails the type assertion and panics. -/
def coerceSecrets : List (String × VaultValue) → List (String × String) →
    Except GoPanic (List (String × String))
  | [], opts => .ok opts
  | (k, .str v) :: rest, opts => coerceSecrets rest (strMapSet opts k v)
  | (_, .nonString) :: _, _ => .error .typeAssertionFailure

/-- `FillVaultConfigInOpts`: overlay the secret bundle onto `opts`; when
`getVaultConfig` yields nil, return `opts` unchanged. -/
def FillVaultConfigInOpts (env : VaultEnv) (opts : List (String × String)) :
    Except GoPanic (List (String × String)) :=
  match getVaultConfig env with
  | .error p => .error p
  | .ok none => .ok opts
  | .ok (some data) => coerceSecrets data opts

/-! ### Name resolver (`resolveName` in util.go)

Go strings are embedded as `List Char`; `strings.Contains` /
`strings.Split` with the one-character separator `"#"` become `hasChar` /
`splitChar`. -/

/-- `ShareSplitIndentifer`, the `"#"` separator (sic, spelling from source). -/
def ShareSplitIndentifer : Char := '#'

/-- `ShareOpt`, the derived share-path option key. -/
def ShareOpt : String := "share"

/-- `CreateOpt`, the derived creation-flag option key. -/
def CreateOpt : String := "create"

/-- `strings.Contains(name, sep)` for a one-character separator. -/
def hasChar : List Char → Char → Bool
  | [], _ => false
  | x :: xs, c => if x = c then true else hasChar xs c

/-- `strings.Split(name, sep)` for a one-character separator. -/
def splitChar (c : Char) : List Char → List (List Char)
  | [] => [[]]
  | x :: xs =>
    if x = c then [] :: splitChar c xs
    else
      match splitChar c xs with
      | [] => [[x]]
      | w :: ws => (x :: w) :: ws

/-- `resolveName`: a name containing `#` splits into the share path (left)
and the volume name (element 1 of the split); derived options are
`{share: left, create: "true"}`.  Other names pass through with no options. -/
def resolveName (name : List Char) :
    List Char × Option (List (String × List Char)) :=
  if hasChar name ShareSplitIndentifer then
    let sharevol := splitChar ShareSplitIndentifer name
    (sharevol.getD 1 [],
      some [(ShareOpt, sharevol.getD 0 []), (CreateOpt, "true".toList)])
  else (name, none)

/-! ### Concrete example stores used to evaluate the operations -/

/-- A store holding one record `"vol"` with an empty Connections map. -/
def exStoreFresh : Store := fun n =>
  if n = "vol" then
    some { Name := "vol", HostDir := "/mnt/vol", Opts := [], Managed := true,
           Connections := [] }
  else none

/-- A store holding one record `"vol"` with `hostA ↦ 2`. -/
def exStoreCount2 : Store := fun n =>
  if n = "vol" then
    some { Name := "vol", HostDir := "/mnt/vol", Opts := [], Managed := true,
           Connections := [("hostA", 2)] }
  else none

/-- A store holding one record `"vol"` with `other ↦ 5, me ↦ 0`. -/
def exStoreOther5 : Store := fun n =>
  if n = "vol" then
    some { Name := "vol", HostDir := "/mnt/vol", Opts := [("a", "1")], Managed := true,
           Connections := [("other", 5), ("me", 0)] }
  else none

/-- A store holding one record `"vol"` with `other ↦ 7, me ↦ 2`. -/
def exStoreActive : Store := fun n =>
  if n = "vol" then
    some { Name := "vol", HostDir := "/mnt/vol", Opts := [("a", "1")], Managed := false,
           Connections := [("other", 7), ("me", 2)] }
  else none

/-- A store holding one managed, idle record `"vol"` (count 0 on `me`). -/
def exStoreManagedIdle : Store := fun n =>
  if n = "vol" then
    some { Name := "vol", HostDir := "/mnt/vol", Opts := [], Managed := true,
           Connections := [("me", 0)] }
  else none

/-! ## Lemmas about the map embedding -/

theorem mapGet_mapSet_self (m : List (String × Int)) (k : String) (v : Int) :
    mapGet (mapSet m k v) k = v := by
  induction m with
  | nil => simp [mapSet, mapGet]
  | cons p rest ih =>
    obtain ⟨a, x⟩ := p
    by_cases hak : a = k
    · simp [mapSet, hak, mapGet]
    · simp [mapSet, hak, mapGet, ih]

theorem mapGet_mapSet_ne (m : List (String × Int)) (k k' : String) (v : Int)
    (h : k' ≠ k) : mapGet (mapSet m k v) k' = mapGet m k' := by
  induction m with
  | nil =>
    simp only [mapSet, mapGet]
    rw [if_neg (fun hh => h hh.symm)]
  | cons p rest ih =>
    obtain ⟨a, x⟩ := p
    by_cases hak : a = k
    · subst hak
      simp only [mapSet, if_pos rfl, mapGet]
      rw [if_neg (fun hh => h hh.symm), if_neg (fun hh => h hh.symm)]
    · simp only [mapSet, if_neg hak, mapGet]
      by_cases hak' : a = k'
      · rw [if_pos hak', if_pos hak']
      · rw [if_neg hak', if_neg hak', ih]

theorem lookupEntry_mapSet_ne (m : List (String × Int)) (k k' : String) (v : Int)
    (h : k' ≠ k) : lookupEntry (mapSet m k v) k' = lookupEntry m k' := by
  induction m with
  | nil =>
    simp only [mapSet, lookupEntry]
    rw [if_neg (fun hh => h hh.symm)]
  | cons p rest ih =>
    obtain ⟨a, x⟩ := p
    by_cases hak : a = k
    · subst hak
      simp only [mapSet, if_pos rfl, lookupEntry]
      rw [if_neg (fun hh => h hh.symm), if_neg (fun hh => h hh.symm)]
    · simp only [mapSet, if_neg hak, lookupEntry]
      by_cases hak' : a = k'
      · rw [if_pos hak', if_pos hak']
      · rw [if_neg hak', if_neg hak', ih]

theorem mapGet_mapSet_nonneg (m : List (String × Int)) (k : String) (v : Int)
    (hm : ∀ h, 0 ≤ mapGet m h) (hv : 0 ≤ v) :
    ∀ h, 0 ≤ mapGet (mapSet m k v) h := by
  intro h
  by_cases hk : h = k
  · subst hk
    rw [mapGet_mapSet_self]
    exact hv
  · rw [mapGet_mapSet_ne m k h v hk]
    exact hm h

theorem mapGet_single (k : String) (v : Int) (h : String) :
    mapGet [(k, v)] h = if k = h then v else 0 := rfl

/-! ## Characterization lemmas for the manager operations -/

theorem Increment_some (s : Store) (host name : String) (mnt : mount)
    (h : s name = some mnt) :
    Increment s host name =
      (putConsulMount s { mnt with
         Connections := mapSet mnt.Connections host (mapGet mnt.Connections host + 1) },
       mapGet mnt.Connections host + 1) := by
  unfold Increment getConsulMount
  rw [h]
  simp [mapGet_mapSet_self]

theorem Increment_none (s : Store) (host name : String) (h : s name = none) :
    Increment s host name = (s, 0) := by
  unfold Increment getConsulMount
  rw [h]

theorem Decrement_pos (s : Store) (host name : String) (mnt : mount)
    (h : s name = some mnt) (hc : 0 < mapGet mnt.Connections host) :
    Decrement s host name =
      (putConsulMount s { mnt with
         Connections := mapSet mnt.Connections host (mapGet mnt.Connections host - 1) },
       0) := by
  unfold Decrement getConsulMount
  rw [h]
  simp [hc]

theorem Decrement_nonpos (s : Store) (host name : String) (mnt : mount)
    (h : s name = some mnt) (hc : mapGet mnt.Connections host ≤ 0) :
    Decrement s host name = (s, 0) := by
  unfold Decrement getConsulMount
  rw [h]
  simp [not_lt.mpr hc]

theorem Decrement_none (s : Store) (host name : String) (h : s name = none) :
    Decrement s host name = (s, 0) := by
  unfold Decrement getConsulMount
  rw [h]

theorem Add_some (s : Store) (host name hostdir : String) (mnt : mount)
    (h : s name = some mnt) :
    Add s host name hostdir = (Increment s host name).1 := by
  unfold Add getConsulMount
  rw [h]

theorem Add_none (s : Store) (host name hostdir : String) (h : s name = none) :
    Add s host name hostdir =
      putConsulMount s
        { Name := name, HostDir := hostdir, Opts := [], Managed := false,
          Connections := [(host, 1)] } := by
  unfold Add getConsulMount
  rw [h]

theorem Create_active (s : Store) (host name hostdir : String)
    (opts : List (String × String)) (mnt : mount)
    (h : s name = some mnt) (hc : 0 < mapGet mnt.Connections host) :
    Create s host name hostdir opts =
      (putConsulMount s { mnt with Opts := opts }, { mnt with Opts := opts }) := by
  unfold Create getConsulMount
  rw [h]
  simp [hc]

theorem Create_inactive (s : Store) (host name hostdir : String)
    (opts : List (String × String)) (mnt : mount)
    (h : s name = some mnt) (hc : mapGet mnt.Connections host ≤ 0) :
    Create s host name hostdir opts =
      (putConsulMount s
        { Name := name, HostDir := hostdir, Opts := opts, Managed := true,
          Connections := [(host, 0)] },
       { Name := name, HostDir := hostdir, Opts := opts, Managed := true,
         Connections := [(host, 0)] }) := by
  unfold Create getConsulMount
  rw [h]
  simp [not_lt.mpr hc]

theorem Create_absent (s : Store) (host name hostdir : String)
    (opts : List (String × String)) (h : s name = none) :
    Create s host name hostdir opts =
      (putConsulMount s
        { Name := name, HostDir := hostdir, Opts := opts, Managed := true,
          Connections := [(host, 0)] },
       { Name := name, HostDir := hostdir, Opts := opts, Managed := true,
         Connections := [(host, 0)] }) := by
  unfold Create getConsulMount
  rw [h]

theorem Delete_inuse (s : Store) (host name : String) (mnt : mount)
    (h : s name = some mnt) (hc : 1 ≤ mapGet mnt.Connections host) :
    Delete s host name = (s, some InUseError) := by
  unfold Delete HasMount Count getConsulMount
  rw [h]
  simp only [Option.isSome_some, if_true]
  rw [if_neg (by omega)]

theorem Delete_idle (s : Store) (host name : String) (mnt : mount)
    (h : s name = some mnt) (hc : mapGet mnt.Connections host < 1) :
    Delete s host name = (deleteConsulMount s name, none) := by
  unfold Delete HasMount Count getConsulMount
  rw [h]
  simp only [Option.isSome_some, if_true]
  rw [if_pos (by simpa using hc)]

theorem Delete_absent (s : Store) (host name : String) (h : s name = none) :
    Delete s host name = (deleteConsulMount s name, none) := by
  unfold Delete HasMount Count getConsulMount
  rw [h]
  simp

theorem DINM_absent (s : Store) (host name : String) (h : s name = none) :
    DeleteIfNotManaged s host name = (s, none) := by
  unfold DeleteIfNotManaged HasMount getConsulMount
  rw [h]
  simp

theorem DINM_active (s : Store) (host name : String) (mnt : mount)
    (h : s name = some mnt) (hc : 0 < mapGet mnt.Connections host) :
    DeleteIfNotManaged s host name = (s, none) := by
  unfold DeleteIfNotManaged HasMount IsActiveMount getConsulMount
  rw [h]
  simp [hc]

theorem DINM_managed (s : Store) (host name : String) (mnt : mount)
    (h : s name = some mnt) (hm : mnt.Managed = true) :
    DeleteIfNotManaged s host name = (s, none) := by
  by_cases hc : 0 < mapGet mnt.Connections host
  · exact DINM_active s host name mnt h hc
  · unfold DeleteIfNotManaged HasMount IsActiveMount getConsulMount
    rw [h]
    simp [hc, hm]

theorem DINM_unmanaged_idle (s : Store) (host name : String) (mnt : mount)
    (h : s name = some mnt) (hm : mnt.Managed = false)
    (hc : ¬ 0 < mapGet mnt.Connections host) :
    DeleteIfNotManaged s host name = Delete s host name := by
  unfold DeleteIfNotManaged HasMount IsActiveMount getConsulMount
  rw [h]
  simp [hc, hm]

/-! ## Preservation of record well-formedness -/

theorem wellFormed_put (s : Store) (mnt : mount) (hs : WellFormed s)
    (hm : ∀ h, 0 ≤ mapGet mnt.Connections h) : WellFormed (putConsulMount s mnt) := by
  intro name m hput h
  by_cases hn : name = mnt.Name
  · simp only [putConsulMount, if_pos hn, Option.some.injEq] at hput
    subst hput
    exact hm h
  · simp only [putConsulMount, if_neg hn] at hput
    exact hs name m hput h

theorem wellFormed_delete (s : Store) (name : String) (hs : WellFormed s) :
    WellFormed (deleteConsulMount s name) := by
  intro n m hdel h
  by_cases hn : n = name
  · simp [deleteConsulMount, hn] at hdel
  · simp only [deleteConsulMount, if_neg hn] at hdel
    exact hs n m hdel h

theorem wellFormed_emptyStore : WellFormed emptyStore := by
  intro n m hm
  simp [emptyStore] at hm

theorem wellFormed_execOp (host : String) (op : Op) (s : Store)
    (hs : WellFormed s) : WellFormed (execOp host s op) := by
  cases op with
  | add name hostdir =>
    simp only [execOp]
    cases hmnt : s name with
    | some mnt =>
      rw [Add_some s host name hostdir mnt hmnt, Increment_some s host name mnt hmnt]
      exact wellFormed_put _ _ hs
        (mapGet_mapSet_nonneg _ _ _ (fun h => hs name mnt hmnt h)
          (by have := hs name mnt hmnt host; omega))
    | none =>
      rw [Add_none s host name hostdir hmnt]
      apply wellFormed_put _ _ hs
      intro h
      rw [mapGet_single]
      by_cases hh : host = h <;> simp [hh]
  | create name hostdir opts =>
    simp only [execOp]
    cases hmnt : s name with
    | some mnt =>
      by_cases hc : 0 < mapGet mnt.Connections host
      · rw [Create_active s host name hostdir opts mnt hmnt hc]
        exact wellFormed_put _ _ hs (fun h => hs name mnt hmnt h)
      · rw [Create_inactive s host name hostdir opts mnt hmnt (by omega)]
        apply wellFormed_put _ _ hs
        intro h
        rw [mapGet_single]
        by_cases hh : host = h <;> simp [hh]
    | none =>
      rw [Create_absent s host name hostdir opts hmnt]
      apply wellFormed_put _ _ hs
      intro h
      rw [mapGet_single]
      by_cases hh : host = h <;> simp [hh]
  | inc name =>
    simp only [execOp]
    cases hmnt : s name with
    | some mnt =>
      rw [Increment_some s host name mnt hmnt]
      exact wellFormed_put _ _ hs
        (mapGet_mapSet_nonneg _ _ _ (fun h => hs name mnt hmnt h)
          (by have := hs name mnt hmnt host; omega))
    | none =>
      rw [Increment_none s host name hmnt]
      exact hs
  | dec name =>
    simp only [execOp]
    cases hmnt : s name with
    | some mnt =>
      by_cases hc : 0 < mapGet mnt.Connections host
      · rw [Decrement_pos s host name mnt hmnt hc]
        exact wellFormed_put _ _ hs
          (mapGet_mapSet_nonneg _ _ _ (fun h => hs name mnt hmnt h) (by omega))
      · rw [Decrement_nonpos s host name mnt hmnt (by omega)]
        exact hs
    | none =>
      rw [Decrement_none s host name hmnt]
      exact hs
  | del name =>
    simp only [execOp]
    cases hmnt : s name with
    | some mnt =>
      by_cases hc : mapGet mnt.Connections host < 1
      · rw [Delete_idle s host name mnt hmnt hc]
        exact wellFormed_delete s name hs
      · rw [Delete_inuse s host name mnt hmnt (by omega)]
        exact hs
    | none =>
      rw [Delete_absent s host name hmnt]
      exact wellFormed_delete s name hs
  | delIfNotManaged name =>
    simp only [execOp]
    cases hmnt : s name with
    | some mnt =>
      by_cases hc : 0 < mapGet mnt.Connections host
      · rw [DINM_active s host name mnt hmnt hc]
        exact hs
      · by_cases hmg : mnt.Managed = true
        · rw [DINM_managed s host name mnt hmnt hmg]
          exact hs
        · rw [DINM_unmanaged_idle s host name mnt hmnt (by simpa using hmg) hc,
              Delete_idle s host name mnt hmnt (by omega)]
          exact wellFormed_delete s name hs
    | none =>
      rw [DINM_absent s host name hmnt]
      exact hs

theorem wellFormed_execSeq (host : String) (ops : List Op) (s : Store)
    (hs : WellFormed s) : WellFormed (execSeq host s ops) := by
  induction ops generalizing s with
  | nil => exact hs
  | cons op ops ih => exact ih (execOp host s op) (wellFormed_execOp host op s hs)

/-! ## Lemmas about the connection-entry observer -/

theorem connEntry_put (s : Store) (mnt' : mount) (n h' : String) :
    connEntry (putConsulMount s mnt') n h' =
      if n = mnt'.Name then lookupEntry mnt'.Connections h'
      else connEntry s n h' := by
  by_cases hn : n = mnt'.Name
  · simp [connEntry, putConsulMount, hn]
  · simp [connEntry, putConsulMount, hn]

theorem connEntry_some (s : Store) (n h' : String) (mnt : mount)
    (h : s n = some mnt) : connEntry s n h' = lookupEntry mnt.Connections h' := by
  simp [connEntry, h]

theorem connEntry_none (s : Store) (n h' : String)
    (h : s n = none) : connEntry s n h' = none := by
  simp [connEntry, h]

/-! ## Lemmas about the name-splitting embedding -/

theorem hasChar_append_sep (l r : List Char) (c : Char) :
    hasChar (l ++ c :: r) c = true := by
  induction l with
  | nil => simp [hasChar]
  | cons x xs ih => by_cases hx : x = c <;> simp [hasChar, hx, ih]

theorem splitChar_not_has (c : Char) (l : List Char)
    (h : hasChar l c = false) : splitChar c l = [l] := by
  induction l with
  | nil => rfl
  | cons x xs ih =>
    simp only [hasChar] at h
    by_cases hx : x = c
    · rw [if_pos hx] at h
      exact absurd h (by simp)
    · rw [if_neg hx] at h
      simp only [splitChar, if_neg hx, ih h]

theorem splitChar_append_sep (c : Char) (l r : List Char)
    (h : hasChar l c = false) :
    splitChar c (l ++ c :: r) = l :: splitChar c r := by
  induction l with
  | nil => simp [splitChar]
  | cons x xs ih =>
    simp only [hasChar] at h
    by_cases hx : x = c
    · rw [if_pos hx] at h
      exact absurd h (by simp)
    · rw [if_neg hx] at h
      simp only [List.cons_append, splitChar, if_neg hx, List.append_eq, ih h]

/-- `Increment` is exactly its snapshot phase followed by its unconditional
write phase: the decomposition used to interleave two calls is faithful. -/
theorem Increment_fst_eq_apply_snapshot (s : Store) (host name : String) :
    (Increment s host name).1 = incApply s host (incSnapshot s name) := by
  unfold Increment incApply incSnapshot getConsulMount
  cases s name <;> rfl

/-! ## Claim theorems -/

/-- Claim C1 (refuted, code bug): the read-modify-write of `Increment` is a
plain get followed by an unconditional put (no version-token condition), so
when host A and host B both snapshot the record before either writes, host
B's put overwrites host A's increment: in the final Connections map host
A's count is 0 and only host B's increment is visible, a lost update. -/
theorem concurrent_increment_loses_update :
    ((Increment exStoreFresh "hostA" "vol").1 =
      incApply exStoreFresh "hostA" (incSnapshot exStoreFresh "vol")) ∧
    connAt (incApply (incApply exStoreFresh "hostA" (incSnapshot exStoreFresh "vol"))
        "hostB" (incSnapshot exStoreFresh "vol")) "vol" "hostA" = some 0 ∧
    connAt (incApply (incApply exStoreFresh "hostA" (incSnapshot exStoreFresh "vol"))
        "hostB" (incSnapshot exStoreFresh "vol")) "vol" "hostB" = some 1 := by
  refine ⟨Increment_fst_eq_apply_snapshot exStoreFresh "hostA" "vol", ?_, ?_⟩ <;> decide

/-- Claim C2 counterexample: on a record where this host's count is 2,
`Decrement` stores count 1 but returns 0, not the new count 1. -/
theorem decrement_return_counterexample :
    Count exStoreCount2 "hostA" "vol" = 2 ∧
    (Decrement exStoreCount2 "hostA" "vol").2 = 0 ∧
    (Decrement exStoreCount2 "hostA" "vol").2 ≠
      Count exStoreCount2 "hostA" "vol" - 1 ∧
    Count (Decrement exStoreCount2 "hostA" "vol").1 "hostA" "vol" = 1 := by
  decide

/-- Claim C2 (amended): `Increment` adds 1 to this host's stored count,
persists, and returns the new count (0 when the record is absent);
`Decrement`, when this host's count is positive, stores count − 1 and
persists but always returns literal 0 rather than the new count, and when
the count is already 0 (or the record absent) it leaves the store
unchanged and returns 0. -/
theorem increment_decrement_spec (s : Store) (host name : String) :
    (∀ mnt, s name = some mnt →
      Increment s host name =
        (putConsulMount s { mnt with
           Connections := mapSet mnt.Connections host (mapGet mnt.Connections host + 1) },
         mapGet mnt.Connections host + 1)) ∧
    (s name = none → Increment s host name = (s, 0)) ∧
    (∀ mnt, s name = some mnt → 0 < mapGet mnt.Connections host →
      Decrement s host name =
        (putConsulMount s { mnt with
           Connections := mapSet mnt.Connections host (mapGet mnt.Connections host - 1) },
         0)) ∧
    (∀ mnt, s name = some mnt → mapGet mnt.Connections host = 0 →
      Decrement s host name = (s, 0)) ∧
    (s name = none → Decrement s host name = (s, 0)) :=
  ⟨fun mnt h => Increment_some s host name mnt h,
   fun h => Increment_none s host name h,
   fun mnt h hc => Decrement_pos s host name mnt h hc,
   fun mnt h hc => Decrement_nonpos s host name mnt h hc.le,
   fun h => Decrement_none s host name h⟩

/-- Witness for the amended C2 theorem at a concrete store with count 2. -/
theorem increment_decrement_spec_witness :
    Decrement exStoreCount2 "hostA" "vol" =
      (putConsulMount exStoreCount2
        { Name := "vol", HostDir := "/mnt/vol", Opts := [], Managed := true,
          Connections := mapSet [("hostA", 2)] "hostA" (mapGet [("hostA", 2)] "hostA" - 1) },
       0) :=
  (increment_decrement_spec exStoreCount2 "hostA" "vol").2.2.1
    { Name := "vol", HostDir := "/mnt/vol", Opts := [], Managed := true,
      Connections := [("hostA", 2)] } rfl (by decide)

/-- Claim C3 counterexample: with `other ↦ 5, me ↦ 0` stored, `Create` on
host `me` takes the not-actively-mounted branch and replaces the record,
destroying host `other`'s Connections entry. -/
theorem create_other_host_counterexample :
    connEntry exStoreOther5 "vol" "other" = some 5 ∧
    connEntry (Create exStoreOther5 "me" "vol" "/mnt/vol" []).1 "vol" "other" = none := by
  decide

/-- Claim C3 (amended): `Add`, `Increment` and `Decrement` never change
another host's Connections entry, `Create` preserves other hosts' entries
while this host's count is positive, and the in-use guard of `Delete`
leaves the store unchanged; but `Create` when this host's count is not
positive replaces the record with a Connections map holding only this host
(destroying other hosts' entries, see the counterexample), and `Delete`
when this host's count is below 1 removes the whole record. -/
theorem other_host_entries_preserved (s : Store) (host name hostdir : String)
    (opts : List (String × String))
    (hkey : ∀ mnt, s name = some mnt → mnt.Name = name) :
    ∀ h', h' ≠ host →
      (∀ n, connEntry (Add s host name hostdir) n h' = connEntry s n h') ∧
      (∀ n, connEntry (Increment s host name).1 n h' = connEntry s n h') ∧
      (∀ n, connEntry (Decrement s host name).1 n h' = connEntry s n h') ∧
      (0 < Count s host name →
        ∀ n, connEntry (Create s host name hostdir opts).1 n h' = connEntry s n h') ∧
      ((Delete s host name).2 = some InUseError → (Delete s host name).1 = s) := by
  intro h' hne
  have hinc : ∀ n, connEntry (Increment s host name).1 n h' = connEntry s n h' := by
    intro n
    cases hmnt : s name with
    | some mnt =>
      rw [Increment_some s host name mnt hmnt]
      show connEntry (putConsulMount s _) n h' = _
      rw [connEntry_put]
      by_cases hn : n = name
      · subst hn
        rw [if_pos (by simp [hkey mnt hmnt])]
        rw [lookupEntry_mapSet_ne mnt.Connections host h' (mapGet mnt.Connections host + 1) hne]
        rw [connEntry_some s n h' mnt hmnt]
      · rw [if_neg (by simp [hkey mnt hmnt, hn])]
    | none =>
      rw [Increment_none s host name hmnt]
  refine ⟨?_, hinc, ?_, ?_, ?_⟩
  · intro n
    cases hmnt : s name with
    | some mnt =>
      rw [Add_some s host name hostdir mnt hmnt]
      exact hinc n
    | none =>
      rw [Add_none s host name hostdir hmnt, connEntry_put]
      by_cases hn : n = name
      · subst hn
        rw [if_pos rfl]
        simp only [lookupEntry]
        rw [if_neg (fun hh => hne hh.symm)]
        rw [connEntry_none s n h' hmnt]
      · rw [if_neg hn]
  · intro n
    cases hmnt : s name with
    | some mnt =>
      by_cases hc : 0 < mapGet mnt.Connections host
      · rw [Decrement_pos s host name mnt hmnt hc]
        show connEntry (putConsulMount s _) n h' = _
        rw [connEntry_put]
        by_cases hn : n = name
        · subst hn
          rw [if_pos (by simp [hkey mnt hmnt])]
          rw [lookupEntry_mapSet_ne mnt.Connections host h' (mapGet mnt.Connections host - 1) hne]
          rw [connEntry_some s n h' mnt hmnt]
        · rw [if_neg (by simp [hkey mnt hmnt, hn])]
      · rw [Decrement_nonpos s host name mnt hmnt (by omega)]
    | none =>
      rw [Decrement_none s host name hmnt]
  · intro hc n
    cases hmnt : s name with
    | some mnt =>
      have hcm : 0 < mapGet mnt.Connections host := by
        unfold Count getConsulMount at hc
        rw [hmnt] at hc
        exact hc
      rw [Create_active s host name hostdir opts mnt hmnt hcm]
      show connEntry (putConsulMount s _) n h' = _
      rw [connEntry_put]
      by_cases hn : n = name
      · subst hn
        rw [if_pos (by simp [hkey mnt hmnt])]
        rw [connEntry_some s n h' mnt hmnt]
      · rw [if_neg (by simp [hkey mnt hmnt, hn])]
    | none =>
      unfold Count getConsulMount at hc
      rw [hmnt] at hc
      simp at hc
  · intro herr
    cases hmnt : s name with
    | some mnt =>
      by_cases hcm : 1 ≤ mapGet mnt.Connections host
      · rw [Delete_inuse s host name mnt hmnt hcm]
      · rw [Delete_idle s host name mnt hmnt (by omega)] at herr
        exact absurd herr (by simp)
    | none =>
      rw [Delete_absent s host name hmnt] at herr
      exact absurd herr (by simp)

/-- Witness for the amended C3 theorem: an active `Create` on host `me`
leaves host `other`'s entry untouched. -/
theorem other_host_entries_preserved_witness :
    connEntry (Create exStoreActive "me" "vol" "/mnt/vol" [("a", "2")]).1 "vol" "other" =
      connEntry exStoreActive "vol" "other" :=
  ((other_host_entries_preserved exStoreActive "me" "vol" "/mnt/vol" [("a", "2")]
      (fun mnt hm => (Option.some.inj hm) ▸ rfl) "other" (by decide)).2.2.2.1
    (by decide)) "vol"

/-- Claim C4: starting from the empty store, every sequence of manager
operations keeps every stored connection count of every host non-negative
(so `Count` is never negative at any observable instant), and `Decrement`
leaves the store untouched when this host's count is already 0. -/
theorem count_nonneg_invariant :
    (∀ (host : String) (ops : List Op), WellFormed (execSeq host emptyStore ops)) ∧
    (∀ (host : String) (ops : List Op) (name h' : String),
      0 ≤ Count (execSeq host emptyStore ops) h' name) ∧
    (∀ (s : Store) (host name : String), Count s host name = 0 →
      (Decrement s host name).1 = s) := by
  refine ⟨?_, ?_, ?_⟩
  · intro host ops
    exact wellFormed_execSeq host ops emptyStore wellFormed_emptyStore
  · intro host ops name h'
    have hwf := wellFormed_execSeq host ops emptyStore wellFormed_emptyStore
    unfold Count getConsulMount
    cases hmnt : execSeq host emptyStore ops name with
    | some mnt => exact hwf name mnt hmnt h'
    | none => simp
  · intro s host name hc
    cases hmnt : s name with
    | some mnt =>
      have hc0 : mapGet mnt.Connections host = 0 := by
        unfold Count getConsulMount at hc
        rw [hmnt] at hc
        exact hc
      rw [Decrement_nonpos s host name mnt hmnt hc0.le]
    | none =>
      rw [Decrement_none s host name hmnt]

/-- Witness for C4 at the empty store, where every count is 0. -/
theorem count_nonneg_invariant_witness :
    (Decrement emptyStore "hostA" "vol").1 = emptyStore :=
  count_nonneg_invariant.2.2 emptyStore "hostA" "vol" rfl

/-- Claim C5: `Delete` fails with the in-use error and leaves the store
unchanged when this host's count is at least 1; when the record exists
with this host's count 0 it removes the record (touching no other key) and
succeeds; when the record is absent it succeeds with no error and changes
nothing. -/
theorem delete_spec (s : Store) (host name : String) :
    (∀ mnt, s name = some mnt → 1 ≤ mapGet mnt.Connections host →
      Delete s host name = (s, some InUseError)) ∧
    (∀ mnt, s name = some mnt → mapGet mnt.Connections host = 0 →
      (Delete s host name).2 = none ∧ (Delete s host name).1 name = none ∧
      (∀ n, n ≠ name → (Delete s host name).1 n = s n)) ∧
    (s name = none →
      (Delete s host name).2 = none ∧ (∀ n, (Delete s host name).1 n = s n)) := by
  refine ⟨fun mnt h hc => Delete_inuse s host name mnt h hc,
          fun mnt h hc => ?_, fun h => ?_⟩
  · rw [Delete_idle s host name mnt h (by omega)]
    refine ⟨rfl, by simp [deleteConsulMount], fun n hn => by simp [deleteConsulMount, hn]⟩
  · rw [Delete_absent s host name h]
    refine ⟨rfl, fun n => ?_⟩
    by_cases hn : n = name
    · subst hn
      simp [deleteConsulMount, h]
    · simp [deleteConsulMount, hn]

/-- Witness for C5: deleting the actively used `vol` fails in-use. -/
theorem delete_spec_witness :
    Delete exStoreActive "me" "vol" = (exStoreActive, some InUseError) :=
  (delete_spec exStoreActive "me" "vol").1
    { Name := "vol", HostDir := "/mnt/vol", Opts := [("a", "1")], Managed := false,
      Connections := [("other", 7), ("me", 2)] } rfl (by decide)

/-- Claim C7: when the record exists and this host's count is positive,
`Create` persists the record with `Opts` replaced by exactly the supplied
options and the Connections map unaltered; in every other state (record
absent, or this host's count 0) it persists a fresh managed record with
this host's count 0 and the given options. -/
theorem create_spec (s : Store) (host name hostdir : String)
    (opts : List (String × String))
    (hkey : ∀ mnt, s name = some mnt → mnt.Name = name) :
    (∀ mnt, s name = some mnt → 0 < mapGet mnt.Connections host →
      Create s host name hostdir opts =
        (putConsulMount s { mnt with Opts := opts }, { mnt with Opts := opts }) ∧
      (Create s host name hostdir opts).1 name = some { mnt with Opts := opts }) ∧
    (∀ mnt, s name = some mnt → mapGet mnt.Connections host = 0 →
      (Create s host name hostdir opts).1 name =
        some { Name := name, HostDir := hostdir, Opts := opts, Managed := true,
               Connections := [(host, 0)] }) ∧
    (s name = none →
      (Create s host name hostdir opts).1 name =
        some { Name := name, HostDir := hostdir, Opts := opts, Managed := true,
               Connections := [(host, 0)] }) := by
  refine ⟨fun mnt h hc => ?_, fun mnt h hc => ?_, fun h => ?_⟩
  · refine ⟨Create_active s host name hostdir opts mnt h hc, ?_⟩
    rw [Create_active s host name hostdir opts mnt h hc]
    show putConsulMount s { mnt with Opts := opts } name = _
    simp [putConsulMount, hkey mnt h]
  · rw [Create_inactive s host name hostdir opts mnt h hc.le]
    show putConsulMount s _ name = _
    simp [putConsulMount]
  · rw [Create_absent s host name hostdir opts h]
    show putConsulMount s _ name = _
    simp [putConsulMount]

/-- Witness for C7: an active `Create` overwrites `Opts` only. -/
theorem create_spec_witness :
    Create exStoreActive "me" "vol" "/mnt/vol" [("a", "2")] =
      (putConsulMount exStoreActive
        { Name := "vol", HostDir := "/mnt/vol", Opts := [("a", "2")], Managed := false,
          Connections := [("other", 7), ("me", 2)] },
       { Name := "vol", HostDir := "/mnt/vol", Opts := [("a", "2")], Managed := false,
         Connections := [("other", 7), ("me", 2)] }) :=
  ((create_spec exStoreActive "me" "vol" "/mnt/vol" [("a", "2")]
      (fun mnt hm => (Option.some.inj hm) ▸ rfl)).1
    { Name := "vol", HostDir := "/mnt/vol", Opts := [("a", "1")], Managed := false,
      Connections := [("other", 7), ("me", 2)] } rfl (by decide)).1

/-- Claim C8: `DeleteIfNotManaged` succeeds without deleting whenever the
record is managed (regardless of count), whenever the record is absent,
and whenever this host's count is positive; only for an existing unmanaged
record with this host's count 0 does it delegate to `Delete`, which then
removes the record. -/
theorem deleteIfNotManaged_spec (s : Store) (host name : String) :
    (∀ mnt, s name = some mnt → mnt.Managed = true →
      DeleteIfNotManaged s host name = (s, none)) ∧
    (s name = none → DeleteIfNotManaged s host name = (s, none)) ∧
    (∀ mnt, s name = some mnt → 0 < mapGet mnt.Connections host →
      DeleteIfNotManaged s host name = (s, none)) ∧
    (∀ mnt, s name = some mnt → mnt.Managed = false →
      mapGet mnt.Connections host = 0 →
      DeleteIfNotManaged s host name = Delete s host name ∧
      (DeleteIfNotManaged s host name).2 = none ∧
      (DeleteIfNotManaged s host name).1 name = none) := by
  refine ⟨fun mnt h hm => DINM_managed s host name mnt h hm,
          fun h => DINM_absent s host name h,
          fun mnt h hc => DINM_active s host name mnt h hc,
          fun mnt h hm hc => ?_⟩
  have hd := DINM_unmanaged_idle s host name mnt h hm (by omega)
  refine ⟨hd, ?_, ?_⟩
  · rw [hd, Delete_idle s host name mnt h (by omega)]
  · rw [hd, Delete_idle s host name mnt h (by omega)]
    simp [deleteConsulMount]

/-- Witness for C8: a managed idle record is left alone. -/
theorem deleteIfNotManaged_spec_witness :
    DeleteIfNotManaged exStoreManagedIdle "me" "vol" = (exStoreManagedIdle, none) :=
  (deleteIfNotManaged_spec exStoreManagedIdle "me" "vol").1
    { Name := "vol", HostDir := "/mnt/vol", Opts := [], Managed := true,
      Connections := [("me", 0)] } rfl rfl

/-- Claim C9 counterexample: on `"a#b#c"` the resolver returns the middle
segment `"b"` (split element 1) with share `"a"`, which is neither the
text right of the first separator (`"b#c"`) nor the text right of the
last separator (`"c"`), so the claim fails on names with more than one
separator. -/
theorem resolveName_multi_sep_counterexample :
    resolveName ('a' :: '#' :: 'b' :: '#' :: 'c' :: []) =
      (['b'], some [(ShareOpt, ['a']), (CreateOpt, "true".toList)]) ∧
    (['b'] : List Char) ≠ ['b', '#', 'c'] ∧
    (['b'] : List Char) ≠ ['c'] := by
  decide

/-- Claim C9 (amended): for every name containing the separator, written
as `l ++ "#" ++ r` with `l` separator-free (the split at the first
separator, and every name containing the separator decomposes this way),
`resolveName` returns split element 1 — the head segment of `r` before
its next separator, which is all of `r` when there is no second
separator — with derived options `{share: l, create: "true"}`; in
particular `l#m#rest` resolves to the middle segment `m`, and a
single-separator `l#r` resolves to `r`.  Names without the separator
pass through unchanged with no derived options. -/
theorem resolveName_spec :
    (∀ l r : List Char, hasChar l ShareSplitIndentifer = false →
      resolveName (l ++ ShareSplitIndentifer :: r) =
        ((splitChar ShareSplitIndentifer r).getD 0 [],
         some [(ShareOpt, l), (CreateOpt, "true".toList)])) ∧
    (∀ l m rest : List Char, hasChar l ShareSplitIndentifer = false →
      hasChar m ShareSplitIndentifer = false →
      resolveName (l ++ ShareSplitIndentifer :: (m ++ ShareSplitIndentifer :: rest)) =
        (m, some [(ShareOpt, l), (CreateOpt, "true".toList)])) ∧
    (∀ l r : List Char, hasChar l ShareSplitIndentifer = false →
      hasChar r ShareSplitIndentifer = false →
      resolveName (l ++ ShareSplitIndentifer :: r) =
        (r, some [(ShareOpt, l), (CreateOpt, "true".toList)])) ∧
    (∀ nm : List Char, hasChar nm ShareSplitIndentifer = false →
      resolveName nm = (nm, none)) ∧
    (∀ nm : List Char, hasChar nm ShareSplitIndentifer = true →
      ∃ l r : List Char, hasChar l ShareSplitIndentifer = false ∧
        nm = l ++ ShareSplitIndentifer :: r) := by
  have hA : ∀ l r : List Char, hasChar l ShareSplitIndentifer = false →
      resolveName (l ++ ShareSplitIndentifer :: r) =
        ((splitChar ShareSplitIndentifer r).getD 0 [],
         some [(ShareOpt, l), (CreateOpt, "true".toList)]) := by
    intro l r hl
    unfold resolveName
    rw [if_pos (hasChar_append_sep l r ShareSplitIndentifer)]
    rw [splitChar_append_sep ShareSplitIndentifer l r hl]
    rfl
  refine ⟨hA, ?_, ?_, ?_, ?_⟩
  · intro l m rest hl hm
    rw [hA l (m ++ ShareSplitIndentifer :: rest) hl,
        splitChar_append_sep ShareSplitIndentifer m rest hm]
    rfl
  · intro l r hl hr
    rw [hA l r hl, splitChar_not_has ShareSplitIndentifer r hr]
    rfl
  · intro nm h
    unfold resolveName
    rw [if_neg (by simp [h])]
  · intro nm
    induction nm with
    | nil =>
      intro h
      simp [hasChar] at h
    | cons x xs ih =>
      intro h
      by_cases hx : x = ShareSplitIndentifer
      · exact ⟨[], xs, rfl, by simp [hx]⟩
      · simp only [hasChar, if_neg hx] at h
        obtain ⟨l, r, hl, heq⟩ := ih h
        refine ⟨x :: l, r, ?_, by simp [heq]⟩
        simp [hasChar, hx, hl]

/-- Witness for the amended C9 theorem on the two-separator name
`"a#b#c"`, which resolves to the middle segment `"b"`. -/
theorem resolveName_spec_witness :
    resolveName ("a".toList ++ ShareSplitIndentifer ::
        ("b".toList ++ ShareSplitIndentifer :: "c".toList)) =
      ("b".toList, some [(ShareOpt, "a".toList), (CreateOpt, "true".toList)]) :=
  resolveName_spec.2.1 "a".toList "b".toList "c".toList (by decide) (by decide)

/-- Claim C10: on an existing record, `Add` increments only this host's
Connections entry, leaves `Name`, `HostDir`, `Opts` and `Managed` (and
every other host's entry) unchanged, touches no other key, and ignores its
`hostdir` argument entirely. -/
theorem add_existing_spec (s : Store) (host name hostdir : String) (mnt : mount)
    (h : s name = some mnt) (hkey : mnt.Name = name) :
    Add s host name hostdir name =
      some { mnt with
        Connections := mapSet mnt.Connections host (mapGet mnt.Connections host + 1) } ∧
    (∀ n, n ≠ name → Add s host name hostdir n = s n) ∧
    (∀ h', h' ≠ host →
      lookupEntry (mapSet mnt.Connections host (mapGet mnt.Connections host + 1)) h' =
        lookupEntry mnt.Connections h') ∧
    (∀ d : String, Add s host name d = Add s host name hostdir) := by
  refine ⟨?_, ?_, ?_, ?_⟩
  · rw [Add_some s host name hostdir mnt h, Increment_some s host name mnt h]
    show putConsulMount s _ name = _
    simp [putConsulMount, hkey]
  · intro n hn
    rw [Add_some s host name hostdir mnt h, Increment_some s host name mnt h]
    show putConsulMount s _ n = _
    simp [putConsulMount, hkey, hn]
  · intro h' hne
    exact lookupEntry_mapSet_ne mnt.Connections host h' (mapGet mnt.Connections host + 1) hne
  · intro d
    rw [Add_some s host name d mnt h, Add_some s host name hostdir mnt h]

/-- Witness for C10: a second host's `Add` with a different hostdir only
bumps its own entry. -/
theorem add_existing_spec_witness :
    Add exStoreCount2 "hostB" "vol" "/elsewhere" "vol" =
      some { Name := "vol", HostDir := "/mnt/vol", Opts := [], Managed := true,
             Connections := mapSet [("hostA", 2)] "hostB" (mapGet [("hostA", 2)] "hostB" + 1) } :=
  (add_existing_spec exStoreCount2 "hostB" "vol" "/elsewhere"
    { Name := "vol", HostDir := "/mnt/vol", Opts := [], Managed := true,
      Connections := [("hostA", 2)] } rfl rfl).1

/-- Claim C6 (refuted, code bug): a nil client or a failed login degrade
gracefully to no overlay (options returned unchanged), but a failed read
(`Logical().Read` returning a nil secret, its error discarded) makes the
code dereference the nil secret — a panic, not an absent result — and one
non-string secret value fails the unchecked `val.(string)` assertion,
aborting the whole fetch with a panic instead of skipping that key. -/
theorem vault_fetch_panics :
    getVaultConfig { clientNil := true, loginErr := false, readResult := none } = .ok none ∧
    getVaultConfig { clientNil := false, loginErr := true, readResult := none } = .ok none ∧
    FillVaultConfigInOpts { clientNil := false, loginErr := true, readResult := none }
      [("existing", "1")] = .ok [("existing", "1")] ∧
    getVaultConfig { clientNil := false, loginErr := false, readResult := none } =
      .error .nilPointerDereference ∧
    FillVaultConfigInOpts
      { clientNil := false, loginErr := false,
        readResult := some [("user", .str "bob"), ("ttl", .nonString), ("pass", .str "pw")] }
      [("existing", "1")] = .error .typeAssertionFailure :=
  ⟨rfl, rfl, rfl, rfl, rfl⟩

end Netshare
